import Mathlib

/-!
Verification of `vaeseq/util.py` (vae-seq): nested-structure utilities,
RNN cell wrappers, and the heterogeneous dynamic unroller.
-/

namespace VaeSeq

/-! ## Nested tensor structures (model of `snt.nest`) -/

/-- A nested structure of values: an arbitrarily nested tuple/list tree with
tensors at the leaves, as handled by `snt.nest`. -/
inductive Nest (α : Type) where
  | leaf : α → Nest α
  | node : List (Nest α) → Nest α

mutual

/-- `snt.nest.flatten`: the ordered list of leaves. -/
def Nest.flatten : Nest α → List α
  | .leaf a => [a]
  | .node ts => Nest.flattenList ts

def Nest.flattenList : List (Nest α) → List α
  | [] => []
  | t :: ts => Nest.flatten t ++ Nest.flattenList ts

end

mutual

/-- `snt.nest.map` with one structure argument. -/
def Nest.map (f : α → β) : Nest α → Nest β
  | .leaf a => .leaf (f a)
  | .node ts => .node (Nest.mapList f ts)

def Nest.mapList (f : α → β) : List (Nest α) → List (Nest β)
  | [] => []
  | t :: ts => Nest.map f t :: Nest.mapList f ts

end

mutual

/-- `snt.nest.map` with two structure arguments (leafwise zip of two
congruent nests; arbitrary on mismatched structures, which `snt.nest`
rejects at runtime). -/
def Nest.map2 (f : α → β → γ) : Nest α → Nest β → Nest γ
  | .leaf a, .leaf b => .leaf (f a b)
  | .node as, .node bs => .node (Nest.map2List f as bs)
  | _, _ => .node []

def Nest.map2List (f : α → β → γ) : List (Nest α) → List (Nest β) → List (Nest γ)
  | a :: as, b :: bs => Nest.map2 f a b :: Nest.map2List f as bs
  | _, _ => []

end

mutual

/-- Whether two nests have the same tree structure (`snt.nest` compatibility:
`pack_sequence_as`/`map` require identical structures). -/
def Nest.sameStruct : Nest α → Nest β → Bool
  | .leaf _, .leaf _ => true
  | .node as, .node bs => Nest.sameStructList as bs
  | _, _ => false

def Nest.sameStructList : List (Nest α) → List (Nest β) → Bool
  | [], [] => true
  | a :: as, b :: bs => Nest.sameStruct a b && Nest.sameStructList as bs
  | _, _ => false

end

mutual

/-- Worker for `snt.nest.pack_sequence_as`: consume a prefix of `xs` to fill
the template, returning the packed nest and the unconsumed suffix. -/
def Nest.packGo [Inhabited α] : Nest β → List α → Nest α × List α
  | .leaf _, [] => (.leaf default, [])
  | .leaf _, x :: xs => (.leaf x, xs)
  | .node ts, xs =>
    let r := Nest.packGoList ts xs
    (.node r.1, r.2)

def Nest.packGoList [Inhabited α] : List (Nest β) → List α → List (Nest α) × List α
  | [], xs => ([], xs)
  | t :: ts, xs =>
    let r := Nest.packGo t xs
    let r2 := Nest.packGoList ts r.2
    (r.1 :: r2.1, r2.2)

end

/-- `snt.nest.pack_sequence_as(template, xs)`. -/
def Nest.pack [Inhabited α] (template : Nest β) (xs : List α) : Nest α :=
  (Nest.packGo template xs).1

/-! ## RNN cores (model of `snt.RNNCore` / `WrapRNNCore`, util.py lines 87-107)

A core is a transition function `(input, state) -> (output, next_state)`
together with declared output/state size descriptors.  The per-step value
types `I`, `O`, `S` and the size-descriptor types `Osz`, `Ssz` are opaque. -/

structure RNNCore (I S O Osz Ssz : Type) where
  build : I → S → O × S
  output_size : Osz
  state_size : Ssz

/-- `WrapRNNCore(step, state_size, output_size)` (util.py lines 87-107):
wraps a transition function into an RNN core. -/
def WrapRNNCore (step : I → S → O × S) (state_size : Ssz) (output_size : Osz) :
    RNNCore I S O Osz Ssz :=
  ⟨step, output_size, state_size⟩

/-- `input_recording_rnn(cell, input_size)` (util.py lines 132-140):
transforms the cell to emit both the output and the input. -/
def input_recording_rnn (cell : RNNCore I S O Osz Ssz) (input_size : Isz) :
    RNNCore I S (O × I) (Osz × Isz) Ssz :=
  WrapRNNCore
    (fun input_ state =>
      let r := cell.build input_ state
      ((r.1, input_), r.2))
    cell.state_size
    (cell.output_size, input_size)

/-- `state_recording_rnn(cell)` (util.py lines 143-151):
transforms the cell to emit both the output and the (pre-step) state. -/
def state_recording_rnn (cell : RNNCore I S O Osz Ssz) :
    RNNCore I S (O × S) (Osz × Ssz) Ssz :=
  WrapRNNCore
    (fun input_ state =>
      let r := cell.build input_ state
      ((r.1, state), r.2))
    cell.state_size
    (cell.output_size, cell.state_size)

/-- `use_recorded_state_rnn(cell)` (util.py lines 154-160):
the input is a pair `(real_input, recorded_state)`; the carried state is
deleted and the cell runs on the recorded state. -/
def use_recorded_state_rnn (cell : RNNCore I S O Osz Ssz) :
    RNNCore (I × S) S O Osz Ssz :=
  WrapRNNCore
    (fun input_state _state =>
      let input_ := input_state.1
      let state := input_state.2
      cell.build input_ state)
    cell.state_size
    cell.output_size

/-! ## Static-shaped tensors (for the scalar-input adapter, util.py 110-129)

A tensor is modelled by its static shape (`get_shape()`) plus a total
content function from index lists to elements; indices beyond the rank are
simply passed through, which the operations below never depend on. -/

structure Tensor (F : Type) where
  shape : List Nat
  data : List Nat → F

instance [Inhabited F] : Inhabited (Tensor F) :=
  ⟨⟨[], fun _ => default⟩⟩

/-- `tf.expand_dims(inp, axis=-1)`: append a trailing unit dimension. -/
def expandDimsLast (t : Tensor F) : Tensor F :=
  ⟨t.shape ++ [1], fun idx => t.data idx.dropLast⟩

/-- `tf.squeeze(input_, axis=-1)`: drop the trailing dimension (the source
only applies it to tensors whose trailing dimension is 1). -/
def squeezeLast (t : Tensor F) : Tensor F :=
  ⟨t.shape.dropLast, fun idx => t.data (idx ++ [0])⟩

/-- The `_squeeze(input_, is_scalar)` helper of
`add_support_for_scalar_rnn_inputs` (util.py lines 122-123). -/
def squeezeIfScalar (input_ : Tensor F) (is_scalar : Bool) : Tensor F :=
  if is_scalar then squeezeLast input_ else input_

/-- `add_support_for_scalar_rnn_inputs(cell, inputs)` (util.py lines 110-129):
detect rank-2 leaves of the full-sequence inputs, expand them with a
trailing unit dimension, and wrap the cell to squeeze that dimension off
per step before delegating to the original cell. -/
def add_support_for_scalar_rnn_inputs [Inhabited F]
    (cell : RNNCore (Nest (Tensor F)) S O Osz Ssz) (inputs : Nest (Tensor F)) :
    RNNCore (Nest (Tensor F)) S O Osz Ssz × Nest (Tensor F) :=
  let flat_inputs := inputs.flatten
  let flat_input_is_scalar := flat_inputs.map (fun inp => inp.shape.length == 2)
  if !flat_input_is_scalar.any (fun b => b) then (cell, inputs)
  else
    let inputs' := Nest.pack inputs
      ((flat_inputs.zip flat_input_is_scalar).map
        (fun p => if p.2 then expandDimsLast p.1 else p.1))
    let is_scalar := Nest.pack inputs' flat_input_is_scalar
    (WrapRNNCore
      (fun inp state => cell.build (Nest.map2 squeezeIfScalar inp is_scalar) state)
      cell.state_size
      cell.output_size,
     inputs')

/-! ## KL combinator (`calc_kl`, util.py lines 23-27)

Distributions are opaque objects supporting `log_prob`; the distribution
library's analytic divergence `distributions.kl_divergence` is an external
function that fails on unsupported family pairs, modelled as an
`Except`-valued parameter. -/

structure Distribution (A R : Type) where
  log_prob : A → R

/-- Model of the hyperparameter bag: `use_monte_carlo_kl` is the one field
`calc_kl` reads; the other configuration fields are read elsewhere. -/
structure HParams where
  use_monte_carlo_kl : Bool
  activation : String
  positive_projection : String
  batch_size : Nat
  sequence_size : Nat

/-- `calc_kl(hparams, a_sample, dist_a, dist_b)` (util.py lines 23-27). -/
def calc_kl [Sub R] (kl_divergence : Distribution A R → Distribution A R → Except E R)
    (hparams : HParams) (a_sample : A) (dist_a dist_b : Distribution A R) :
    Except E R :=
  if hparams.use_monte_carlo_kl then
    .ok (dist_a.log_prob a_sample - dist_b.log_prob a_sample)
  else
    kl_divergence dist_a dist_b

/-! ## Dynamic hyperparameters (`dynamic_hparam`, util.py lines 234-247)

The graph's named collections are modelled as a map from collection name to
the list of registered tensors; `placeholder_with_default` construction is
modelled by a record of the tensor's name and default value. -/

structure PlaceholderWithDefault (V : Type) where
  name : String
  default_value : V

/-- Graph state: `tf.get_collection_ref(name)` for every collection name. -/
abbrev Graph (V : Type) := String → List (PlaceholderWithDefault V)

/-- `dynamic_hparam(key, value)` (util.py lines 234-247), explicit in the
graph state: raises when the collection already has more than one item,
constructs and registers the placeholder when the collection is empty, and
returns `collection[0]`. -/
def dynamic_hparam (key : String) (value : V) (g : Graph V) :
    Except String (PlaceholderWithDefault V × Graph V) :=
  let collection := g ("HPARAMS_" ++ key)
  if collection.length > 1 then
    .error "Dynamic hparams ollection should contain one item."
  else
    match collection with
    | [] =>
      let tensor : PlaceholderWithDefault V := ⟨key, value⟩
      let g' : Graph V := fun k =>
        if k = "HPARAMS_" ++ key then collection ++ [tensor] else g k
      .ok (tensor, g')
    | t :: _ => .ok (t, g)

/-! ## Sequence tensors and unrolling (util.py lines 163-231, 250-263)

For the unrolling functions a tensor is modelled by its static shape
(`get_shape()`, used only for rank tests) together with its content along
the two leading axes: a list of lists of opaque per-(axis0, axis1) values.
Static-shape-only calls of the source (`set_shape`, `element_shape`,
`with_rank_at_least`) have no effect on content and are not modelled. -/

/-- Content of a tensor along its two leading axes; the element type `P`
holds whatever trailing structure the tensor has. -/
abbrev Mat (P : Type) := List (List P)

/-- `tf.transpose(tensor, perm=[1, 0, 2, ...])` on the content: swap the
two leading axes. -/
def transposeMat [Inhabited P] (m : Mat P) : Mat P :=
  (List.range (m.headD []).length).map (fun j => m.map (fun row => row.getD j default))

/-- A sequence-level tensor: static shape plus leading-axes content. -/
structure Tsr (P : Type) where
  shape : List Nat
  mat : Mat P

instance : Inhabited (Tsr P) := ⟨⟨[], []⟩⟩

/-- `transpose_time_batch(tensor)` (util.py lines 217-221): transpose the
first two dimensions. -/
def transpose_time_batch [Inhabited P] (tensor : Mat P) : Mat P :=
  transposeMat tensor

/-- `batch_size_from_nested_tensors(tensors)` (util.py lines 250-255): the
dynamic dimension 0 (`tf.shape(tensor)[0]`) of the first flattened tensor
of static rank > 0, else `None`. -/
def batch_size_from_nested_tensors (tensors : Nest (Tsr P)) : Option Nat :=
  (tensors.flatten.find? (fun tensor => decide (0 < tensor.shape.length))).map
    (fun tensor => tensor.mat.length)

/-- `sequence_size_from_nested_tensors(tensors)` (util.py lines 258-263):
the dynamic dimension 1 (`tf.shape(tensor)[1]`) of the first flattened
tensor of static rank > 1, else `None`. -/
def sequence_size_from_nested_tensors (tensors : Nest (Tsr P)) : Option Nat :=
  (tensors.flatten.find? (fun tensor => decide (1 < tensor.shape.length))).map
    (fun tensor => (tensor.mat.headD []).length)

/-- `tf.TensorArray(dtype, size=n, element_shape=...)`: a per-timestep
array recording every `write`; `element_shape` is static-only metadata. -/
structure TensorArray (α : Type) where
  size : Option Nat
  written : List (Nat × α)

/-- `ta.write(index, value)`. -/
def TensorArray.write (ta : TensorArray α) (index : Nat) (value : α) : TensorArray α :=
  ⟨ta.size, ta.written ++ [(index, value)]⟩

/-- `ta.read(i)`: the last value written at index `i`. -/
def TensorArray.read [Inhabited α] (ta : TensorArray α) (i : Nat) : α :=
  (((ta.written.filter (fun e => e.1 == i)).getLast?).map Prod.snd).getD default

/-- `ta.stack()`: the written elements in index order (time-major). -/
def TensorArray.stack [Inhabited α] (ta : TensorArray α) : List α :=
  (List.range (ta.size.getD ta.written.length)).map ta.read

/-- Per-step slices of a sequence tensor along the time axis
(axis 0 when time-major, axis 1 when batch-major), as `tf.nn.dynamic_rnn`
feeds them to the cell: one batch-vector of elements per step. -/
def timeSlices [Inhabited P] (time_major : Bool) (x : Tsr P) : Mat P :=
  if time_major then x.mat else transposeMat x.mat

/-- The number of timesteps `tf.nn.dynamic_rnn` unrolls for: the time-axis
extent of the (first) input tensor. -/
def numSteps [Inhabited P] (time_major : Bool) (inputs : Nest (Tsr P)) : Nat :=
  (timeSlices time_major (inputs.flatten.headD default)).length

/-- The list of per-step nested inputs fed to the cell. -/
def stepInputsList [Inhabited P] (time_major : Bool) (inputs : Nest (Tsr P)) :
    List (Nest (List P)) :=
  (List.range (numSteps time_major inputs)).map
    (fun t => inputs.map (fun leaf => (timeSlices time_major leaf).getD t []))

/-- The sequential unroll of a transition function over per-step inputs,
threading state and collecting the per-step outputs. -/
def rnnLoop (step : I → S → O × S) : List I → S → List O × S
  | [], s => ([], s)
  | i :: rest, s =>
    let r := step i s
    let rr := rnnLoop step rest r.2
    (r.1 :: rr.1, rr.2)

/-- Stacking of per-step outputs by `tf.nn.dynamic_rnn`: time-major
outputs are stacked as produced; batch-major output transposes the two
leading axes. -/
def stackOutput [Inhabited P] (time_major : Bool) (rows : Mat P) : Mat P :=
  if time_major then rows else transposeMat rows

/-- Model of the host unrolling primitive `tf.nn.dynamic_rnn(cell, inputs,
initial_state, time_major)`: slice the inputs along the time axis, fold the
cell over the steps, and stack each flattened output component according to
the time-major flag. -/
def tf_dynamic_rnn [Inhabited P] (time_major : Bool)
    (step : Nest (List P) → St → Nest (List P) × St) (output_size : Nest Unit)
    (inputs : Nest (Tsr P)) (initial_state : St) : Nest (Mat P) × St :=
  let r := rnnLoop step (stepInputsList time_major inputs) initial_state
  let stacked := (List.range output_size.flatten.length).map
    (fun j => stackOutput time_major (r.1.map (fun o => o.flatten.getD j [])))
  (Nest.pack output_size stacked, r.2)

/-- A cell as consumed by `heterogeneous_dynamic_rnn`: a transition
function on nested per-step values, a declared output structure, and the
inherited `zero_state(batch_size, dtype)` constructor. -/
structure HetRNNCell (P S D : Type) where
  step : Nest (List P) → S → Nest (List P) × S
  output_size : Nest Unit
  zero_state : Option Nat → Nest D → S

/-- The `_step` wrapper of `heterogeneous_dynamic_rnn` (util.py lines
186-195): run the cell, write every non-first flattened output to its
auxiliary TensorArray at the carried step index, and return the first
flattened output with the updated `(step + 1, arrays, state)`. -/
def hetStep [Inhabited P] (cell : HetRNNCell P S D) (input_ : Nest (List P))
    (aux_state : Nat × List (TensorArray (List P)) × S) :
    Nest (List P) × (Nat × List (TensorArray (List P)) × S) :=
  let step := aux_state.1
  let aux_output_tas := aux_state.2.1
  let r := cell.step input_ aux_state.2.2
  let flat_outputs := r.1.flatten
  let tas := List.zipWith (fun ta output => ta.write step output)
    aux_output_tas flat_outputs.tail
  (Nest.leaf (flat_outputs.headD []), (step + 1, tas, r.2))

/-- Initial-state selection of `heterogeneous_dynamic_rnn` (util.py lines
169-171): the given state, else the cell's zero state sized by
`batch_size_from_nested_tensors(inputs)`. -/
def hetInitialState (cell : HetRNNCell P S D) (initial_state : Option S)
    (inputs : Nest (Tsr P)) (output_dtypes : Nest D) : S :=
  match initial_state with
  | none => cell.zero_state (batch_size_from_nested_tensors inputs) output_dtypes
  | some s => s

/-- Auxiliary TensorArray allocation of `heterogeneous_dynamic_rnn`
(util.py lines 176-183): one array of size
`sequence_size_from_nested_tensors(inputs)` per non-first output
component. -/
def hetAuxOutputTAs (output_dtypes : Nest D) (output_size : Nest Unit)
    (inputs : Nest (Tsr P)) : List (TensorArray (List P)) :=
  let input_length := sequence_size_from_nested_tensors inputs
  ((output_dtypes.flatten.tail).zip (output_size.flatten.tail)).map
    (fun _ => ⟨input_length, []⟩)

/-- `heterogeneous_dynamic_rnn(cell, inputs, initial_state, time_major,
output_dtypes)` (util.py lines 163-214). -/
def heterogeneous_dynamic_rnn [Inhabited P] (cell : HetRNNCell P S D)
    (inputs : Nest (Tsr P)) (initial_state : Option S) (time_major : Bool)
    (output_dtypes : Nest D) : Nest (Mat P) × S :=
  let initState := hetInitialState cell initial_state inputs output_dtypes
  let flat_output_size := cell.output_size.flatten
  let aux_state := (0, hetAuxOutputTAs output_dtypes cell.output_size inputs, initState)
  let core := WrapRNNCore (hetStep cell) (none : Option Unit)
    (Nest.leaf (flat_output_size.headD ()))
  let r := tf_dynamic_rnn time_major core.build core.output_size inputs aux_state
  let first_output := r.1.flatten.headD []
  let outputs := first_output ::
    r.2.2.1.map (fun ta => if time_major then ta.stack else transpose_time_batch ta.stack)
  (Nest.pack output_dtypes outputs, r.2.2.2)

/-- `tf.reverse(x, axis=[time_axis])` on a sequence tensor. -/
def reverseTsrTime (time_major : Bool) (x : Tsr P) : Tsr P :=
  ⟨x.shape, if time_major then x.mat.reverse else x.mat.map List.reverse⟩

/-- `tf.reverse(x, axis=[time_axis])` on an output (content view). -/
def reverseMatTime (time_major : Bool) (x : Mat P) : Mat P :=
  if time_major then x.reverse else x.map List.reverse

/-- `reverse_dynamic_rnn(cell, inputs, time_major, **kwargs)` (util.py
lines 224-231): reverse every input leaf along the time axis, run
`tf.nn.dynamic_rnn` forward, and reverse every output leaf again. -/
def reverse_dynamic_rnn [Inhabited P] (step : Nest (List P) → St → Nest (List P) × St)
    (output_size : Nest Unit) (inputs : Nest (Tsr P)) (time_major : Bool)
    (initial_state : St) : Nest (Mat P) × St :=
  let rev_inputs := inputs.map (reverseTsrTime time_major)
  let r := tf_dynamic_rnn time_major step output_size rev_inputs initial_state
  (r.1.map (reverseMatTime time_major), r.2)

/-! ## Claim theorems: cell wrappers -/

/-- C7: For every cell transformed by `use_recorded_state_rnn`, stepping
the wrapper on an input pair `(real_input, recorded_state)` from any two
carried states gives identical results, and the result equals
`cell(real_input, recorded_state)`: the carried state is discarded. -/
theorem claim_C7 (cell : RNNCore I S O Osz Ssz) (input_ : I) (recorded_state : S)
    (s1 s2 : S) :
    (use_recorded_state_rnn cell).build (input_, recorded_state) s1
      = (use_recorded_state_rnn cell).build (input_, recorded_state) s2
    ∧ (use_recorded_state_rnn cell).build (input_, recorded_state) s1
      = cell.build input_ recorded_state :=
  ⟨rfl, rfl⟩

/-- C8: One step of `state_recording_rnn` returns
`((output, state), next_state)` where `(output, next_state) = cell(input,
state)` — the recorded component is the pre-step state — and the declared
output size is the pair of the cell's output size and state size. -/
theorem claim_C8 (cell : RNNCore I S O Osz Ssz) (input_ : I) (state : S) :
    (state_recording_rnn cell).build input_ state
      = (((cell.build input_ state).1, state), (cell.build input_ state).2)
    ∧ (state_recording_rnn cell).output_size = (cell.output_size, cell.state_size) :=
  ⟨rfl, rfl⟩

/-- C10: `input_recording_rnn` and `state_recording_rnn` leave the state
transition unchanged — the wrapper's next state equals the wrapped cell's
next state on the same input and state — and keep the declared state size;
only the output component is extended. -/
theorem claim_C10 (cell : RNNCore I S O Osz Ssz) (input_size : Isz)
    (input_ : I) (state : S) :
    ((input_recording_rnn cell input_size).build input_ state).2
      = (cell.build input_ state).2
    ∧ ((state_recording_rnn cell).build input_ state).2
      = (cell.build input_ state).2
    ∧ (input_recording_rnn cell input_size).state_size = cell.state_size
    ∧ (state_recording_rnn cell).state_size = cell.state_size :=
  ⟨rfl, rfl, rfl, rfl⟩

/-! ## Claim theorems: KL combinator -/

/-- C4: `calc_kl` returns the Monte-Carlo estimate
`log dist_a(a_sample) - log dist_b(a_sample)` when
`hparams.use_monte_carlo_kl` is set, and otherwise returns exactly what the
distribution library's analytic `kl_divergence` returns — including its
error when the pair has no analytic divergence; the result depends on the
hyperparameters only through the flag (purity in the configuration). -/
theorem claim_C4 [Sub R]
    (kl_divergence : Distribution A R → Distribution A R → Except E R)
    (hparams : HParams) (a_sample : A) (dist_a dist_b : Distribution A R) :
    (hparams.use_monte_carlo_kl = true →
      calc_kl kl_divergence hparams a_sample dist_a dist_b
        = .ok (dist_a.log_prob a_sample - dist_b.log_prob a_sample))
    ∧ (hparams.use_monte_carlo_kl = false →
      calc_kl kl_divergence hparams a_sample dist_a dist_b
        = kl_divergence dist_a dist_b)
    ∧ (∀ e, hparams.use_monte_carlo_kl = false →
      kl_divergence dist_a dist_b = .error e →
      calc_kl kl_divergence hparams a_sample dist_a dist_b = .error e)
    ∧ (∀ hparams' : HParams,
      hparams'.use_monte_carlo_kl = hparams.use_monte_carlo_kl →
      calc_kl kl_divergence hparams' a_sample dist_a dist_b
        = calc_kl kl_divergence hparams a_sample dist_a dist_b) := by
  refine ⟨fun h => ?_, fun h => ?_, fun e h he => ?_, fun hparams' h => ?_⟩ <;>
    simp [calc_kl, *]

/-- Witness for C4 at concrete inputs. -/
theorem claim_C4_witness :
    (⟨true, "relu", "exp", 1, 1⟩ : HParams).use_monte_carlo_kl = true
    ∧ calc_kl (fun _ _ => Except.error ()) (⟨true, "relu", "exp", 1, 1⟩ : HParams)
        (0 : Int) ⟨fun a => a⟩ ⟨fun a => a + 1⟩
      = Except.ok ((0 : Int) - (0 + 1)) :=
  ⟨rfl,
   (claim_C4 (fun _ _ => Except.error ()) ⟨true, "relu", "exp", 1, 1⟩ 0
     ⟨fun a => a⟩ ⟨fun a => a + 1⟩).1 rfl⟩

/-! ## Claim theorems: dynamic hyperparameters -/

/-- C5: For every key within one graph, the first `dynamic_hparam(key,
value)` call constructs and registers exactly one placeholder-with-default
tensor; every subsequent call with the same key returns that cached tensor
and leaves the graph unchanged; and more than one tensor registered in the
key's collection raises unconditionally. -/
theorem claim_C5 (key : String) (value value' : V) (g : Graph V)
    (t : PlaceholderWithDefault V) :
    (g ("HPARAMS_" ++ key) = [] →
      dynamic_hparam key value g
        = .ok (⟨key, value⟩,
            fun k => if k = "HPARAMS_" ++ key then [⟨key, value⟩] else g k))
    ∧ (g ("HPARAMS_" ++ key) = [] →
      ∀ g₂ : Graph V, dynamic_hparam key value g = .ok (t, g₂) →
        g₂ ("HPARAMS_" ++ key) = [t]
        ∧ dynamic_hparam key value' g₂ = .ok (t, g₂))
    ∧ (g ("HPARAMS_" ++ key) = [t] → dynamic_hparam key value' g = .ok (t, g))
    ∧ (1 < (g ("HPARAMS_" ++ key)).length →
      dynamic_hparam key value g
        = .error "Dynamic hparams ollection should contain one item.") := by
  refine ⟨fun h0 => ?_, fun h0 g₂ h => ?_, fun h1 => ?_, fun h2 => ?_⟩
  · simp [dynamic_hparam, h0]
  · simp [dynamic_hparam, h0] at h
    obtain ⟨rfl, rfl⟩ := h
    constructor
    · simp
    · simp [dynamic_hparam]
  · simp [dynamic_hparam, h1]
  · simp [dynamic_hparam, h2]

/-- Witness for C5 at a concrete empty graph. -/
theorem claim_C5_witness :
    ((fun _ => []) : Graph Int) ("HPARAMS_" ++ "batch_size") = []
    ∧ dynamic_hparam "batch_size" (7 : Int) (fun _ => [])
      = .ok (⟨"batch_size", 7⟩,
          fun k => if k = "HPARAMS_" ++ "batch_size" then [⟨"batch_size", 7⟩]
            else (fun _ => []) k) :=
  ⟨rfl, (claim_C5 "batch_size" (7 : Int) 7 (fun _ => []) ⟨"batch_size", 7⟩).1 rfl⟩

/-! ## Structural lemmas about `Nest` and the list helpers -/

mutual

theorem Nest.sameStruct_flatten_length :
    ∀ (a : Nest α) (b : Nest β), Nest.sameStruct a b = true →
      a.flatten.length = b.flatten.length
  | .leaf _, .leaf _, _ => rfl
  | .leaf _, .node _, h => by simp [Nest.sameStruct] at h
  | .node _, .leaf _, h => by simp [Nest.sameStruct] at h
  | .node as, .node bs, h => by
    simp only [Nest.sameStruct] at h
    simpa [Nest.flatten] using Nest.sameStructList_flattenList_length as bs h

theorem Nest.sameStructList_flattenList_length :
    ∀ (as : List (Nest α)) (bs : List (Nest β)), Nest.sameStructList as bs = true →
      (Nest.flattenList as).length = (Nest.flattenList bs).length
  | [], [], _ => rfl
  | [], _ :: _, h => by simp [Nest.sameStructList] at h
  | _ :: _, [], h => by simp [Nest.sameStructList] at h
  | a :: as, b :: bs, h => by
    simp only [Nest.sameStructList, Bool.and_eq_true] at h
    simp only [Nest.flattenList, List.length_append,
      Nest.sameStruct_flatten_length a b h.1,
      Nest.sameStructList_flattenList_length as bs h.2]

end

mutual

theorem Nest.flatten_map : ∀ (x : Nest α) (f : α → β),
    (Nest.map f x).flatten = x.flatten.map f
  | .leaf _, _ => by simp [Nest.map, Nest.flatten]
  | .node ts, f => by
    simp only [Nest.map, Nest.flatten]
    exact Nest.flattenList_mapList ts f

theorem Nest.flattenList_mapList : ∀ (ts : List (Nest α)) (f : α → β),
    Nest.flattenList (Nest.mapList f ts) = (Nest.flattenList ts).map f
  | [], _ => by simp [Nest.mapList, Nest.flattenList]
  | t :: ts, f => by
    simp only [Nest.mapList, Nest.flattenList, List.map_append,
      Nest.flatten_map t f, Nest.flattenList_mapList ts f]

end

mutual

theorem Nest.packGo_flatten_map [Inhabited β] : ∀ (x : Nest α) (f : α → β) (r : List β),
    Nest.packGo x (x.flatten.map f ++ r) = (Nest.map f x, r)
  | .leaf _, _, r => by simp [Nest.flatten, Nest.map, Nest.packGo]
  | .node ts, f, r => by
    simp only [Nest.flatten, Nest.map, Nest.packGo,
      Nest.packGoList_flattenList_map ts f r]

theorem Nest.packGoList_flattenList_map [Inhabited β] :
    ∀ (ts : List (Nest α)) (f : α → β) (r : List β),
      Nest.packGoList ts ((Nest.flattenList ts).map f ++ r) = (Nest.mapList f ts, r)
  | [], _, r => by simp [Nest.flattenList, Nest.mapList, Nest.packGoList]
  | t :: ts, f, r => by
    simp only [Nest.flattenList, Nest.mapList, Nest.packGoList, List.map_append,
      List.append_assoc]
    rw [Nest.packGo_flatten_map t f ((Nest.flattenList ts).map f ++ r)]
    simp only [Nest.packGoList_flattenList_map ts f r]

end

theorem Nest.pack_flatten_map [Inhabited β] (x : Nest α) (f : α → β) :
    Nest.pack x (x.flatten.map f) = Nest.map f x := by
  have h := Nest.packGo_flatten_map x f []
  simp only [List.append_nil] at h
  simp [Nest.pack, h]

mutual

theorem Nest.sameStruct_refl : ∀ (x : Nest α), Nest.sameStruct x x = true
  | .leaf _ => by simp [Nest.sameStruct]
  | .node ts => by
    simp only [Nest.sameStruct]
    exact Nest.sameStructList_refl ts

theorem Nest.sameStructList_refl : ∀ (ts : List (Nest α)),
    Nest.sameStructList ts ts = true
  | [] => by simp [Nest.sameStructList]
  | t :: ts => by
    simp only [Nest.sameStructList, Bool.and_eq_true]
    exact ⟨Nest.sameStruct_refl t, Nest.sameStructList_refl ts⟩

end

mutual

theorem Nest.sameStruct_map_left : ∀ (a : Nest α) (b : Nest γ) (f : α → β),
    Nest.sameStruct (Nest.map f a) b = Nest.sameStruct a b
  | .leaf _, .leaf _, _ => by simp [Nest.map, Nest.sameStruct]
  | .leaf _, .node _, _ => by simp [Nest.map, Nest.sameStruct]
  | .node _, .leaf _, _ => by simp [Nest.map, Nest.sameStruct]
  | .node ts, .node bs, f => by
    simp only [Nest.map, Nest.sameStruct]
    exact Nest.sameStructList_mapList_left ts bs f

theorem Nest.sameStructList_mapList_left :
    ∀ (ts : List (Nest α)) (bs : List (Nest γ)) (f : α → β),
      Nest.sameStructList (Nest.mapList f ts) bs = Nest.sameStructList ts bs
  | [], [], _ => by simp [Nest.mapList, Nest.sameStructList]
  | [], _ :: _, _ => by simp [Nest.mapList, Nest.sameStructList]
  | _ :: _, [], _ => by simp [Nest.mapList, Nest.sameStructList]
  | t :: ts, b :: bs, f => by
    simp only [Nest.mapList, Nest.sameStructList, Nest.sameStruct_map_left t b f,
      Nest.sameStructList_mapList_left ts bs f]

end

mutual

theorem Nest.sameStruct_map_right : ∀ (a : Nest α) (b : Nest γ) (f : γ → β),
    Nest.sameStruct a (Nest.map f b) = Nest.sameStruct a b
  | .leaf _, .leaf _, _ => by simp [Nest.map, Nest.sameStruct]
  | .leaf _, .node _, _ => by simp [Nest.map, Nest.sameStruct]
  | .node _, .leaf _, _ => by simp [Nest.map, Nest.sameStruct]
  | .node ts, .node bs, f => by
    simp only [Nest.map, Nest.sameStruct]
    exact Nest.sameStructList_mapList_right ts bs f

theorem Nest.sameStructList_mapList_right :
    ∀ (ts : List (Nest α)) (bs : List (Nest γ)) (f : γ → β),
      Nest.sameStructList ts (Nest.mapList f bs) = Nest.sameStructList ts bs
  | [], [], _ => by simp [Nest.mapList, Nest.sameStructList]
  | [], _ :: _, _ => by simp [Nest.mapList, Nest.sameStructList]
  | _ :: _, [], _ => by simp [Nest.mapList, Nest.sameStructList]
  | t :: ts, b :: bs, f => by
    simp only [Nest.mapList, Nest.sameStructList, Nest.sameStruct_map_right t b f,
      Nest.sameStructList_mapList_right ts bs f]

end

mutual

theorem Nest.sameStruct_packGo [Inhabited γ] : ∀ (a : Nest α) (b : Nest β),
    Nest.sameStruct a b = true → ∀ (xs : List γ), Nest.packGo a xs = Nest.packGo b xs
  | .leaf _, .leaf _, _, xs => by cases xs <;> simp [Nest.packGo]
  | .leaf _, .node _, h, _ => by simp [Nest.sameStruct] at h
  | .node _, .leaf _, h, _ => by simp [Nest.sameStruct] at h
  | .node as, .node bs, h, xs => by
    simp only [Nest.sameStruct] at h
    simp only [Nest.packGo, Nest.sameStructList_packGoList as bs h xs]

theorem Nest.sameStructList_packGoList [Inhabited γ] :
    ∀ (as : List (Nest α)) (bs : List (Nest β)), Nest.sameStructList as bs = true →
      ∀ (xs : List γ), Nest.packGoList as xs = Nest.packGoList bs xs
  | [], [], _, _ => rfl
  | [], _ :: _, h, _ => by simp [Nest.sameStructList] at h
  | _ :: _, [], h, _ => by simp [Nest.sameStructList] at h
  | a :: as, b :: bs, h, xs => by
    simp only [Nest.sameStructList, Bool.and_eq_true] at h
    simp only [Nest.packGoList, Nest.sameStruct_packGo a b h.1 xs]
    rw [Nest.sameStructList_packGoList as bs h.2]

end

mutual

theorem Nest.map2_cancel {f : α → β → γ} {g : γ → β → α} :
    ∀ (x : Nest α) (y : Nest β), Nest.sameStruct x y = true →
      (∀ a b, g (f a b) b = a) → Nest.map2 g (Nest.map2 f x y) y = x
  | .leaf _, .leaf _, _, hgf => by simp [Nest.map2, hgf]
  | .leaf _, .node _, h, _ => by simp [Nest.sameStruct] at h
  | .node _, .leaf _, h, _ => by simp [Nest.sameStruct] at h
  | .node xs, .node ys, h, hgf => by
    simp only [Nest.sameStruct] at h
    simp only [Nest.map2]
    rw [Nest.map2List_cancel xs ys h hgf]

theorem Nest.map2List_cancel {f : α → β → γ} {g : γ → β → α} :
    ∀ (xs : List (Nest α)) (ys : List (Nest β)), Nest.sameStructList xs ys = true →
      (∀ a b, g (f a b) b = a) →
      Nest.map2List g (Nest.map2List f xs ys) ys = xs
  | [], [], _, _ => rfl
  | [], _ :: _, h, _ => by simp [Nest.sameStructList] at h
  | _ :: _, [], h, _ => by simp [Nest.sameStructList] at h
  | x :: xs, y :: ys, h, hgf => by
    simp only [Nest.sameStructList, Bool.and_eq_true] at h
    simp only [Nest.map2List]
    rw [Nest.map2_cancel x y h.1 hgf, Nest.map2List_cancel xs ys h.2 hgf]

end

theorem headD_eq_getD (l : List γ) (d : γ) : l.headD d = l.getD 0 d := by
  cases l <;> rfl

theorem listMapRangeGetD (l : List γ) (f : γ → δ) (d : γ) :
    (List.range l.length).map (fun j => f (l.getD j d)) = l.map f := by
  induction l with
  | nil => rfl
  | cons a l ih =>
    simp only [List.length_cons, List.range_succ_eq_map, List.map_cons,
      List.getD_cons_zero, List.map_map, Function.comp_def, Nat.succ_eq_add_one,
      List.getD_cons_succ]
    rw [ih]

theorem listRangeGetD (l : List γ) (d : γ) :
    (List.range l.length).map (fun j => l.getD j d) = l := by
  simpa using listMapRangeGetD l (fun x => x) d

theorem transposeMat_length [Inhabited P] (m : Mat P) :
    (transposeMat m).length = (m.headD []).length := by
  simp [transposeMat]

theorem transposeMat_getElem [Inhabited P] (m : Mat P) (j : Nat)
    (h : j < (transposeMat m).length) :
    (transposeMat m)[j] = m.map (fun row => row.getD j default) := by
  simp [transposeMat]

theorem transposeMat_transposeMat [Inhabited P] (m : Mat P) (B L : Nat)
    (hB : m.length = B) (hL : ∀ row ∈ m, row.length = L)
    (hB0 : 0 < B) (hL0 : 0 < L) :
    transposeMat (transposeMat m) = m := by
  have hmhead : (m.headD []).length = L := by
    cases m with
    | nil => simp at hB; omega
    | cons r rest => exact hL r (by simp)
  have h1 : (transposeMat m).length = L := by rw [transposeMat_length, hmhead]
  have h1pos : 0 < (transposeMat m).length := by omega
  have hhead2 : ((transposeMat m).headD []).length = m.length := by
    rw [headD_eq_getD, List.getD_eq_getElem _ _ h1pos, transposeMat_getElem,
      List.length_map]
  apply List.ext_getElem
  · rw [transposeMat_length, hhead2]
  · intro b hb1 hb2
    rw [transposeMat_getElem]
    apply List.ext_getElem
    · rw [List.length_map, h1, hL m[b] (List.getElem_mem hb2)]
    · intro j hj1 hj2
      have hjL : j < L := by
        have := hL m[b] (List.getElem_mem hb2)
        omega
      have hjtm : j < (transposeMat m).length := by omega
      rw [List.getElem_map, transposeMat_getElem,
        List.getD_eq_getElem _ _ (by rw [List.length_map]; exact hb2),
        List.getElem_map, List.getD_eq_getElem _ _ (by omega)]

theorem zip_map_self (l : List γ) (g : γ → δ) (h : γ × δ → ε) :
    (l.zip (l.map g)).map h = l.map (fun a => h (a, g a)) := by
  induction l with
  | nil => rfl
  | cons a l ih => simp [ih]

theorem squeezeLast_expandDimsLast (t : Tensor F) :
    squeezeLast (expandDimsLast t) = t := by
  cases t with
  | mk shape data =>
    simp only [squeezeLast, expandDimsLast]
    congr 1
    · exact List.dropLast_concat
    · funext idx
      simp [List.dropLast_concat]

/-! ## Claim theorems: scalar-input adapter -/

/-- C6: When the inputs have at least one rank-2 leaf,
`add_support_for_scalar_rnn_inputs` appends a trailing unit dimension to
exactly the rank-2 leaves, and the wrapped cell applied to the
correspondingly expanded per-step input (with the same state) returns
exactly what the original cell returns on the un-expanded per-step input:
expand-then-squeeze round-trips to the identity. -/
theorem claim_C6 [Inhabited F]
    (cell : RNNCore (Nest (Tensor F)) S O Osz Ssz) (inputs : Nest (Tensor F))
    (step_input : Nest (Tensor F)) (state : S)
    (hscalar : (inputs.flatten.map (fun inp => inp.shape.length == 2)).any
      (fun b => b) = true)
    (hstruct : Nest.sameStruct step_input inputs = true) :
    (add_support_for_scalar_rnn_inputs cell inputs).2
      = Nest.map (fun t => if t.shape.length == 2 then expandDimsLast t else t) inputs
    ∧ (add_support_for_scalar_rnn_inputs cell inputs).1.build
        (Nest.map2 (fun t is_scalar => if is_scalar then expandDimsLast t else t)
          step_input
          (Nest.pack inputs (inputs.flatten.map (fun inp => inp.shape.length == 2))))
        state
      = cell.build step_input state := by
  have hzip := zip_map_self inputs.flatten (fun inp => inp.shape.length == 2)
    (fun p => if p.2 then expandDimsLast p.1 else p.1)
  have hinputs' : Nest.pack inputs
      ((inputs.flatten.zip (inputs.flatten.map (fun inp => inp.shape.length == 2))).map
        (fun p => if p.2 then expandDimsLast p.1 else p.1))
      = Nest.map (fun t => if t.shape.length == 2 then expandDimsLast t else t) inputs := by
    rw [hzip]
    exact Nest.pack_flatten_map inputs _
  have hsnd : (add_support_for_scalar_rnn_inputs cell inputs).2
      = Nest.map (fun t => if t.shape.length == 2 then expandDimsLast t else t) inputs := by
    simp only [add_support_for_scalar_rnn_inputs, hscalar, Bool.not_true, if_false]
    exact hinputs'
  refine ⟨hsnd, ?_⟩
  have hpackflags : Nest.pack inputs
      (inputs.flatten.map (fun inp => inp.shape.length == 2))
      = Nest.map (fun inp => inp.shape.length == 2) inputs :=
    Nest.pack_flatten_map inputs _
  simp only [add_support_for_scalar_rnn_inputs, hscalar, Bool.not_true, if_false,
    WrapRNNCore]
  have hpack2 : Nest.pack
      (Nest.pack inputs
        ((inputs.flatten.zip (inputs.flatten.map (fun inp => inp.shape.length == 2))).map
          (fun p => if p.2 then expandDimsLast p.1 else p.1)))
      (inputs.flatten.map (fun inp => inp.shape.length == 2))
      = Nest.map (fun inp => inp.shape.length == 2) inputs := by
    rw [hinputs']
    unfold Nest.pack
    rw [Nest.sameStruct_packGo
      (Nest.map (fun t => if t.shape.length == 2 then expandDimsLast t else t) inputs)
      inputs
      (by rw [Nest.sameStruct_map_left]; exact Nest.sameStruct_refl inputs)]
    exact congrArg Prod.fst rfl |>.trans (congrArg (fun z => z)
      (Nest.pack_flatten_map inputs _))
  show cell.build (Nest.map2 squeezeIfScalar _ _) state = cell.build step_input state
  rw [hpack2, hpackflags]
  have hcancel := Nest.map2_cancel
    (f := fun t is_scalar => if is_scalar then expandDimsLast t else t)
    (g := squeezeIfScalar)
    step_input (Nest.map (fun inp => inp.shape.length == 2) inputs)
    (by rw [Nest.sameStruct_map_right]; exact hstruct)
    (by
      intro a b
      cases b <;> simp [squeezeIfScalar, squeezeLast_expandDimsLast])
  rw [hcancel]

/-- Witness for C6 at a concrete rank-2 input and echo cell. -/
theorem claim_C6_witness :
    ((Nest.leaf (⟨[2, 3], fun _ => 0⟩ : Tensor Nat)).flatten.map
        (fun inp => inp.shape.length == 2)).any (fun b => b) = true
    ∧ Nest.sameStruct (Nest.leaf (⟨[7], fun _ => 1⟩ : Tensor Nat))
        (Nest.leaf (⟨[2, 3], fun _ => 0⟩ : Tensor Nat)) = true
    ∧ (add_support_for_scalar_rnn_inputs
          (⟨fun inp state => (inp, state), (), ()⟩ :
            RNNCore (Nest (Tensor Nat)) Nat (Nest (Tensor Nat)) Unit Unit)
          (Nest.leaf (⟨[2, 3], fun _ => 0⟩ : Tensor Nat))).1.build
        (Nest.map2 (fun t is_scalar => if is_scalar then expandDimsLast t else t)
          (Nest.leaf (⟨[7], fun _ => 1⟩ : Tensor Nat))
          (Nest.pack (Nest.leaf (⟨[2, 3], fun _ => 0⟩ : Tensor Nat))
            ((Nest.leaf (⟨[2, 3], fun _ => 0⟩ : Tensor Nat)).flatten.map
              (fun inp => inp.shape.length == 2))))
        5
      = (Nest.leaf (⟨[7], fun _ => 1⟩ : Tensor Nat), 5) :=
  ⟨rfl, rfl,
   (claim_C6
     (⟨fun inp state => (inp, state), (), ()⟩ :
       RNNCore (Nest (Tensor Nat)) Nat (Nest (Tensor Nat)) Unit Unit)
     (Nest.leaf (⟨[2, 3], fun _ => 0⟩ : Tensor Nat))
     (Nest.leaf (⟨[7], fun _ => 1⟩ : Tensor Nat)) 5 rfl rfl).2⟩

/-! ## Claim theorems: heterogeneous unroller, sizes and initial state -/

/-- C2: With `initial_state = None`, in both time-major and batch-major
modes, `heterogeneous_dynamic_rnn` starts from the cell's zero state sized
by `batch_size_from_nested_tensors(inputs)` — dimension 0 of the first
flattened input of rank > 0 — and sizes every auxiliary per-timestep array
by `sequence_size_from_nested_tensors(inputs)` — dimension 1 of the first
flattened input of rank > 1. -/
theorem claim_C2 [Inhabited P] (cell : HetRNNCell P S D) (inputs : Nest (Tsr P))
    (output_dtypes : Nest D) (t0 t1 : Tsr P)
    (h0 : inputs.flatten.find? (fun tensor => decide (0 < tensor.shape.length))
      = some t0)
    (h1 : inputs.flatten.find? (fun tensor => decide (1 < tensor.shape.length))
      = some t1) :
    batch_size_from_nested_tensors inputs = some t0.mat.length
    ∧ sequence_size_from_nested_tensors inputs = some (t1.mat.headD []).length
    ∧ hetInitialState cell none inputs output_dtypes
        = cell.zero_state (some t0.mat.length) output_dtypes
    ∧ (∀ ta ∈ hetAuxOutputTAs output_dtypes cell.output_size inputs,
        ta.size = some (t1.mat.headD []).length)
    ∧ (∀ time_major : Bool,
        heterogeneous_dynamic_rnn cell inputs none time_major output_dtypes
          = heterogeneous_dynamic_rnn cell inputs
              (some (cell.zero_state (some t0.mat.length) output_dtypes))
              time_major output_dtypes) := by
  have hb : batch_size_from_nested_tensors inputs = some t0.mat.length := by
    simp [batch_size_from_nested_tensors, h0]
  have hs : sequence_size_from_nested_tensors inputs
      = some (t1.mat.headD []).length := by
    simp [sequence_size_from_nested_tensors, h1]
  have hstate : hetInitialState cell none inputs output_dtypes
      = cell.zero_state (some t0.mat.length) output_dtypes := by
    simp [hetInitialState, hb]
  refine ⟨hb, hs, hstate, ?_, ?_⟩
  · intro ta hta
    simp only [hetAuxOutputTAs, List.mem_map] at hta
    obtain ⟨_, _, rfl⟩ := hta
    simp [hs]
  · intro time_major
    have : hetInitialState cell none inputs output_dtypes
        = hetInitialState cell
            (some (cell.zero_state (some t0.mat.length) output_dtypes))
            inputs output_dtypes := by
      simp [hetInitialState, hb]
    simp only [heterogeneous_dynamic_rnn, this]

/-- Witness for C2 at concrete inputs with a rank-1 and a rank-2 leaf. -/
theorem claim_C2_witness :
    (Nest.node [Nest.leaf (⟨[2], [[5], [6]]⟩ : Tsr Nat),
        Nest.leaf (⟨[2, 3], [[1, 2, 3], [4, 5, 6]]⟩ : Tsr Nat)]).flatten.find?
        (fun tensor => decide (0 < tensor.shape.length))
      = some (⟨[2], [[5], [6]]⟩ : Tsr Nat)
    ∧ batch_size_from_nested_tensors
        (Nest.node [Nest.leaf (⟨[2], [[5], [6]]⟩ : Tsr Nat),
          Nest.leaf (⟨[2, 3], [[1, 2, 3], [4, 5, 6]]⟩ : Tsr Nat)])
      = some 2
    ∧ sequence_size_from_nested_tensors
        (Nest.node [Nest.leaf (⟨[2], [[5], [6]]⟩ : Tsr Nat),
          Nest.leaf (⟨[2, 3], [[1, 2, 3], [4, 5, 6]]⟩ : Tsr Nat)])
      = some 3 :=
  ⟨rfl,
   (claim_C2 (⟨fun i s => (i, s), Nest.leaf (), fun b _ => b.getD 0⟩ :
       HetRNNCell Nat Nat Unit)
     (Nest.node [Nest.leaf ⟨[2], [[5], [6]]⟩,
       Nest.leaf ⟨[2, 3], [[1, 2, 3], [4, 5, 6]]⟩])
     (Nest.leaf ()) ⟨[2], [[5], [6]]⟩ ⟨[2, 3], [[1, 2, 3], [4, 5, 6]]⟩
     rfl rfl).1,
   (claim_C2 (⟨fun i s => (i, s), Nest.leaf (), fun b _ => b.getD 0⟩ :
       HetRNNCell Nat Nat Unit)
     (Nest.node [Nest.leaf ⟨[2], [[5], [6]]⟩,
       Nest.leaf ⟨[2, 3], [[1, 2, 3], [4, 5, 6]]⟩])
     (Nest.leaf ()) ⟨[2], [[5], [6]]⟩ ⟨[2, 3], [[1, 2, 3], [4, 5, 6]]⟩
     rfl rfl).2.1⟩

/-- Invariant of the `_step` loop: starting from step counter `k`, a run
over `n` inputs appends to every auxiliary array exactly the write indices
`k, k+1, ..., k+n-1`, and advances the counter to `k + n`. -/
theorem hetStep_loop_writes [Inhabited P] (cell : HetRNNCell P S D) :
    ∀ (ins : List (Nest (List P))) (k : Nat) (tas : List (TensorArray (List P)))
      (s0 : S),
      (∀ i st, tas.length + 1 ≤ ((cell.step i st).1).flatten.length) →
      (rnnLoop (hetStep cell) ins (k, tas, s0)).2.1 = k + ins.length
      ∧ (rnnLoop (hetStep cell) ins (k, tas, s0)).2.2.1.length = tas.length
      ∧ ∀ j (hj : j < (rnnLoop (hetStep cell) ins (k, tas, s0)).2.2.1.length)
          (hj' : j < tas.length),
          ((rnnLoop (hetStep cell) ins (k, tas, s0)).2.2.1[j]).written.map Prod.fst
            = tas[j].written.map Prod.fst ++ List.range' k ins.length
  | [], k, tas, s0, _ => by
    refine ⟨by simp [rnnLoop], by simp [rnnLoop], ?_⟩
    intro j hj hj'
    simp [rnnLoop]
  | i :: rest, k, tas, s0, h => by
    have hstep : hetStep cell i (k, tas, s0)
        = (Nest.leaf (((cell.step i s0).1.flatten).headD []),
           (k + 1,
            List.zipWith (fun ta output => ta.write k output) tas
              ((cell.step i s0).1.flatten).tail,
            (cell.step i s0).2)) := rfl
    have htail : tas.length ≤ (((cell.step i s0).1.flatten).tail).length := by
      have := h i s0
      simp only [List.length_tail]
      omega
    have hzlen : (List.zipWith (fun ta output => ta.write k output) tas
        (((cell.step i s0).1.flatten).tail)).length = tas.length := by
      rw [List.length_zipWith]
      omega
    have harity' : ∀ i' st, (List.zipWith (fun ta output => ta.write k output) tas
        (((cell.step i s0).1.flatten).tail)).length + 1
          ≤ ((cell.step i' st).1).flatten.length := by
      intro i' st
      rw [hzlen]
      exact h i' st
    obtain ⟨ih1, ih2, ih3⟩ := hetStep_loop_writes cell rest (k + 1)
      (List.zipWith (fun ta output => ta.write k output) tas
        (((cell.step i s0).1.flatten).tail))
      ((cell.step i s0).2) harity'
    have hloop : rnnLoop (hetStep cell) (i :: rest) (k, tas, s0)
        = ((Nest.leaf (((cell.step i s0).1.flatten).headD []))
            :: (rnnLoop (hetStep cell) rest
                (k + 1,
                 List.zipWith (fun ta output => ta.write k output) tas
                   ((cell.step i s0).1.flatten).tail,
                 (cell.step i s0).2)).1,
           (rnnLoop (hetStep cell) rest
                (k + 1,
                 List.zipWith (fun ta output => ta.write k output) tas
                   ((cell.step i s0).1.flatten).tail,
                 (cell.step i s0).2)).2) := by
      simp [rnnLoop, hstep]
    refine ⟨?_, ?_, ?_⟩
    · rw [hloop]
      simp only [ih1, List.length_cons]
      omega
    · rw [hloop]
      rw [ih2, hzlen]
    · intro j hj hj'
      simp only [hloop] at hj ⊢
      have hj2 : j < (List.zipWith (fun ta output => ta.write k output) tas
          (((cell.step i s0).1.flatten).tail)).length := by
        rw [hzlen]
        exact hj'
      rw [ih3 j hj hj2]
      have hjt : j < (((cell.step i s0).1.flatten).tail).length := by omega
      have hz : (List.zipWith (fun ta output => ta.write k output) tas
          (((cell.step i s0).1.flatten).tail))[j]
          = (tas[j]).write k ((((cell.step i s0).1.flatten).tail)[j]) :=
        List.getElem_zipWith
      rw [hz]
      simp only [TensorArray.write, List.map_append, List.map_cons, List.map_nil]
      rw [List.length_cons, List.range'_succ]
      simp

/-- C1: In every run of the `_step` loop of `heterogeneous_dynamic_rnn`
over `T` timesteps (started, as the unroller does, at step counter 0 with
freshly allocated, unwritten auxiliary arrays), every auxiliary array
receives exactly the writes at timestep indices `0, 1, ..., T-1`, in
strictly increasing order of the carried step counter — no index skipped,
none written twice. -/
theorem claim_C1 [Inhabited P] (cell : HetRNNCell P S D)
    (ins : List (Nest (List P))) (tas : List (TensorArray (List P))) (s0 : S)
    (hempty : ∀ ta ∈ tas, ta.written = [])
    (harity : ∀ i st, tas.length + 1 ≤ ((cell.step i st).1).flatten.length) :
    (rnnLoop (hetStep cell) ins (0, tas, s0)).2.1 = ins.length
    ∧ (rnnLoop (hetStep cell) ins (0, tas, s0)).2.2.1.length = tas.length
    ∧ ∀ ta' ∈ (rnnLoop (hetStep cell) ins (0, tas, s0)).2.2.1,
        ta'.written.map Prod.fst = List.range ins.length := by
  obtain ⟨h1, h2, h3⟩ := hetStep_loop_writes cell ins 0 tas s0 harity
  refine ⟨by simpa using h1, h2, ?_⟩
  intro ta' hta'
  obtain ⟨j, hj, rfl⟩ := List.mem_iff_getElem.mp hta'
  have hj' : j < tas.length := by omega
  rw [h3 j hj hj', hempty tas[j] (List.getElem_mem hj')]
  simp [List.range_eq_range']

/-- Witness for C1: a two-output cell, one auxiliary array, three steps. -/
theorem claim_C1_witness :
    (∀ ta ∈ [(⟨some 3, []⟩ : TensorArray (List Nat))], ta.written = [])
    ∧ ((rnnLoop (hetStep (⟨fun i s => (Nest.node [Nest.leaf [1], Nest.leaf [2]], s + 1),
          Nest.node [Nest.leaf (), Nest.leaf ()], fun _ _ => 0⟩ :
            HetRNNCell Nat Nat Unit))
        [Nest.leaf [9], Nest.leaf [8], Nest.leaf [7]]
        (0, [⟨some 3, []⟩], 0)).2.1 = 3
      ∧ (rnnLoop (hetStep (⟨fun i s => (Nest.node [Nest.leaf [1], Nest.leaf [2]], s + 1),
          Nest.node [Nest.leaf (), Nest.leaf ()], fun _ _ => 0⟩ :
            HetRNNCell Nat Nat Unit))
        [Nest.leaf [9], Nest.leaf [8], Nest.leaf [7]]
        (0, [⟨some 3, []⟩], 0)).2.2.1.length = 1
      ∧ ∀ ta' ∈ (rnnLoop (hetStep (⟨fun i s => (Nest.node [Nest.leaf [1], Nest.leaf [2]], s + 1),
          Nest.node [Nest.leaf (), Nest.leaf ()], fun _ _ => 0⟩ :
            HetRNNCell Nat Nat Unit))
        [Nest.leaf [9], Nest.leaf [8], Nest.leaf [7]]
        (0, [⟨some 3, []⟩], 0)).2.2.1,
          ta'.written.map Prod.fst = List.range 3) :=
  ⟨by decide,
   claim_C1 (⟨fun i s => (Nest.node [Nest.leaf [1], Nest.leaf [2]], s + 1),
       Nest.node [Nest.leaf (), Nest.leaf ()], fun _ _ => 0⟩ :
         HetRNNCell Nat Nat Unit)
     [Nest.leaf [9], Nest.leaf [8], Nest.leaf [7]]
     [⟨some 3, []⟩] 0 (by decide) (fun i st => Nat.le_refl 2)⟩

mutual

theorem Nest.map_map : ∀ (x : Nest α) (g : α → β) (f : β → γ),
    Nest.map f (Nest.map g x) = Nest.map (fun a => f (g a)) x
  | .leaf _, _, _ => by simp [Nest.map]
  | .node ts, g, f => by
    simp only [Nest.map]
    rw [Nest.mapList_mapList ts g f]

theorem Nest.mapList_mapList : ∀ (ts : List (Nest α)) (g : α → β) (f : β → γ),
    Nest.mapList f (Nest.mapList g ts) = Nest.mapList (fun a => f (g a)) ts
  | [], _, _ => by simp [Nest.mapList]
  | t :: ts, g, f => by
    simp only [Nest.mapList]
    rw [Nest.map_map t g f, Nest.mapList_mapList ts g f]

end

mutual

theorem Nest.map_congr : ∀ (x : Nest α) (f g : α → β),
    (∀ a ∈ x.flatten, f a = g a) → Nest.map f x = Nest.map g x
  | .leaf a, f, g, h => by
    simp only [Nest.map]
    rw [h a (by simp [Nest.flatten])]
  | .node ts, f, g, h => by
    simp only [Nest.map]
    rw [Nest.mapList_congr ts f g (by simpa [Nest.flatten] using h)]

theorem Nest.mapList_congr : ∀ (ts : List (Nest α)) (f g : α → β),
    (∀ a ∈ Nest.flattenList ts, f a = g a) →
      Nest.mapList f ts = Nest.mapList g ts
  | [], _, _, _ => rfl
  | t :: ts, f, g, h => by
    simp only [Nest.flattenList, List.mem_append] at h
    simp only [Nest.mapList]
    rw [Nest.map_congr t f g (fun a ha => h a (Or.inl ha)),
      Nest.mapList_congr ts f g (fun a ha => h a (Or.inr ha))]

end

/-- With no auxiliary arrays, the `_step` loop is the plain cell loop: the
visible outputs are the (single) flattened outputs, the array list stays
empty, and the threaded state is the cell's own state. -/
theorem hetStep_loop_noaux [Inhabited P] (cell : HetRNNCell P S D) :
    ∀ (ins : List (Nest (List P))) (k : Nat) (s0 : S),
      rnnLoop (hetStep cell) ins (k, ([] : List (TensorArray (List P))), s0)
        = ((rnnLoop cell.step ins s0).1.map
             (fun o => (Nest.leaf (o.flatten.headD []) : Nest (List P))),
           (k + ins.length, [], (rnnLoop cell.step ins s0).2))
  | [], k, s0 => by simp [rnnLoop]
  | i :: rest, k, s0 => by
    have hstep : hetStep cell i (k, [], s0)
        = (Nest.leaf (((cell.step i s0).1.flatten).headD []),
           (k + 1, [], (cell.step i s0).2)) := by
      simp [hetStep]
    simp only [rnnLoop, hstep]
    rw [hetStep_loop_noaux cell rest (k + 1) ((cell.step i s0).2)]
    simp only [Prod.mk.injEq, List.map_cons, List.length_cons, true_and, and_true]
    omega

/-! ## Claim theorems: heterogeneous unroller, single-output refinement -/

/-- C3: For a cell whose declared output structure has exactly one
flattened component (and whose outputs respect that declaration),
`heterogeneous_dynamic_rnn` allocates zero auxiliary arrays, and its whole
result — outputs and final state — equals calling the plain host unrolling
primitive `tf.nn.dynamic_rnn` directly with the same cell, inputs, resolved
initial state, and time-major flag. -/
theorem claim_C3 [Inhabited P] (cell : HetRNNCell P S D) (inputs : Nest (Tsr P))
    (initial_state : Option S) (time_major : Bool) (output_dtypes : Nest D)
    (hdt : Nest.sameStruct output_dtypes cell.output_size = true)
    (hlen : output_dtypes.flatten.length = 1)
    (hout : ∀ i st, Nest.sameStruct ((cell.step i st).1) cell.output_size = true) :
    hetAuxOutputTAs output_dtypes cell.output_size inputs = []
    ∧ heterogeneous_dynamic_rnn cell inputs initial_state time_major output_dtypes
      = tf_dynamic_rnn time_major cell.step cell.output_size inputs
          (hetInitialState cell initial_state inputs output_dtypes) := by
  have hlen' : cell.output_size.flatten.length = 1 := by
    have := Nest.sameStruct_flatten_length output_dtypes cell.output_size hdt
    omega
  have hdtail : output_dtypes.flatten.tail = [] := by
    cases hdts : output_dtypes.flatten with
    | nil => rfl
    | cons a l =>
      rw [hdts] at hlen
      simp only [List.length_cons] at hlen
      have hl0 : l.length = 0 := by omega
      simp [List.length_eq_zero.mp hl0]
  have haux : hetAuxOutputTAs output_dtypes cell.output_size inputs = [] := by
    simp [hetAuxOutputTAs, hdtail]
  refine ⟨haux, ?_⟩
  simp only [heterogeneous_dynamic_rnn, haux, tf_dynamic_rnn, WrapRNNCore]
  rw [hetStep_loop_noaux cell (stepInputsList time_major inputs) 0
    (hetInitialState cell initial_state inputs output_dtypes)]
  simp only [Nest.flatten, List.length_cons, List.length_nil, List.range_succ,
    List.range_zero, List.nil_append, List.map_cons, List.map_nil, List.map_map,
    hlen']
  simp only [Nest.pack, Nest.packGo, Function.comp_def, Nest.flatten,
    List.getD_cons_zero, List.map_cons, List.map_nil, Nest.flattenList,
    List.headD_cons, List.append_nil]
  simp only [headD_eq_getD]
  have hpack : ∀ X : Mat P,
      (Nest.packGo output_dtypes [X]).1 = (Nest.packGo cell.output_size [X]).1 := by
    intro X
    rw [Nest.sameStruct_packGo output_dtypes cell.output_size hdt]
  rw [hpack]

/-- Witness for C3: a single-output cell on a 2x2 batch-major input. -/
theorem claim_C3_witness :
    Nest.sameStruct (Nest.leaf () : Nest Unit) (Nest.leaf () : Nest Unit) = true
    ∧ (Nest.leaf () : Nest Unit).flatten.length = 1
    ∧ (hetAuxOutputTAs (Nest.leaf ()) (Nest.leaf ())
          (Nest.leaf (⟨[2, 2], [[1, 2], [3, 4]]⟩ : Tsr Nat)) = []
       ∧ heterogeneous_dynamic_rnn
            (⟨fun i s => (Nest.leaf (i.flatten.headD []), s + 1),
              Nest.leaf (), fun _ _ => 0⟩ : HetRNNCell Nat Nat Unit)
            (Nest.leaf ⟨[2, 2], [[1, 2], [3, 4]]⟩) (some 5) false (Nest.leaf ())
         = tf_dynamic_rnn false
            (fun i s => (Nest.leaf (i.flatten.headD []), s + 1))
            (Nest.leaf ()) (Nest.leaf ⟨[2, 2], [[1, 2], [3, 4]]⟩)
            (hetInitialState
              (⟨fun i s => (Nest.leaf (i.flatten.headD []), s + 1),
                Nest.leaf (), fun _ _ => 0⟩ : HetRNNCell Nat Nat Unit)
              (some 5) (Nest.leaf ⟨[2, 2], [[1, 2], [3, 4]]⟩) (Nest.leaf ()))) :=
  ⟨rfl, rfl,
   claim_C3
     (⟨fun i s => (Nest.leaf (i.flatten.headD []), s + 1),
       Nest.leaf (), fun _ _ => 0⟩ : HetRNNCell Nat Nat Unit)
     (Nest.leaf ⟨[2, 2], [[1, 2], [3, 4]]⟩) (some 5) false (Nest.leaf ())
     rfl rfl (fun i st => rfl)⟩

/-! ## Claim theorems: reverse-time unroller -/

theorem rnnLoop_echo : ∀ (ins : List I) (s0 : St),
    rnnLoop (fun i s => (i, s)) ins s0 = (ins, s0)
  | [], _ => rfl
  | i :: rest, s0 => by
    simp [rnnLoop, rnnLoop_echo rest s0]

/-- Reversing a rectangular sequence tensor along the time axis keeps the
number of per-step slices equal to the time extent `T`. -/
theorem timeSlices_reverse_length [Inhabited P] (time_major : Bool) (y : Tsr P)
    (T B : Nat) (hB : 0 < B)
    (h : if time_major then y.mat.length = T ∧ ∀ row ∈ y.mat, row.length = B
      else y.mat.length = B ∧ ∀ row ∈ y.mat, row.length = T) :
    (timeSlices time_major (reverseTsrTime time_major y)).length = T := by
  cases time_major with
  | true =>
    simp only [if_true] at h
    simp [timeSlices, reverseTsrTime, h.1]
  | false =>
    simp only [Bool.false_eq_true, if_false] at h
    obtain ⟨hBlen, hrows⟩ := h
    simp only [timeSlices, reverseTsrTime, Bool.false_eq_true, if_false]
    rw [transposeMat_length]
    cases hm : y.mat with
    | nil =>
      rw [hm] at hBlen
      simp at hBlen
      omega
    | cons r rest =>
      simp only [List.map_cons, List.headD_cons, List.length_reverse]
      exact hrows r (by rw [hm]; exact List.mem_cons_self r rest)

/-- Stacking the per-step slices of a (reversed) rectangular sequence
tensor reassembles exactly its content. -/
theorem stackOutput_timeSlices_reverse [Inhabited P] (time_major : Bool)
    (y : Tsr P) (T B : Nat) (hT : 0 < T) (hB : 0 < B)
    (h : if time_major then y.mat.length = T ∧ ∀ row ∈ y.mat, row.length = B
      else y.mat.length = B ∧ ∀ row ∈ y.mat, row.length = T) :
    stackOutput time_major (timeSlices time_major (reverseTsrTime time_major y))
      = reverseMatTime time_major y.mat := by
  cases time_major with
  | true => simp [stackOutput, timeSlices, reverseTsrTime, reverseMatTime]
  | false =>
    simp only [Bool.false_eq_true, if_false] at h
    obtain ⟨hBlen, hrows⟩ := h
    simp only [stackOutput, timeSlices, reverseTsrTime, reverseMatTime,
      Bool.false_eq_true, if_false]
    apply transposeMat_transposeMat (y.mat.map List.reverse) B T ?_ ?_ hB hT
    · rw [List.length_map]
      exact hBlen
    · intro row hrow
      obtain ⟨r, hr, rfl⟩ := List.mem_map.mp hrow
      rw [List.length_reverse]
      exact hrows r hr

theorem reverseMatTime_reverseMatTime (time_major : Bool) (m : Mat P) :
    reverseMatTime time_major (reverseMatTime time_major m) = m := by
  cases time_major <;>
    simp [reverseMatTime, List.map_map, Function.comp_def]

/-- C9: `reverse_dynamic_rnn` is exactly reverse-inputs, unroll forward,
reverse-outputs; its returned state is the final state of the forward
unroll over the time-reversed inputs; and for the echo cell (output =
input) on rectangular nonempty inputs the output contents equal the input
contents. -/
theorem claim_C9 [Inhabited P] (step : Nest (List P) → St → Nest (List P) × St)
    (output_size : Nest Unit) (inputs : Nest (Tsr P)) (time_major : Bool)
    (initial_state : St) (T B : Nat)
    (hstruct : Nest.sameStruct output_size inputs = true)
    (hne : 0 < inputs.flatten.length)
    (hT : 0 < T) (hB : 0 < B)
    (hrect : ∀ y ∈ inputs.flatten,
      if time_major then y.mat.length = T ∧ ∀ row ∈ y.mat, row.length = B
      else y.mat.length = B ∧ ∀ row ∈ y.mat, row.length = T) :
    reverse_dynamic_rnn step output_size inputs time_major initial_state
      = ((tf_dynamic_rnn time_major step output_size
            (inputs.map (reverseTsrTime time_major)) initial_state).1.map
           (reverseMatTime time_major),
         (tf_dynamic_rnn time_major step output_size
            (inputs.map (reverseTsrTime time_major)) initial_state).2)
    ∧ (reverse_dynamic_rnn step output_size inputs time_major initial_state).2
      = (tf_dynamic_rnn time_major step output_size
          (inputs.map (reverseTsrTime time_major)) initial_state).2
    ∧ (reverse_dynamic_rnn (fun i s => (i, s)) output_size inputs time_major
        initial_state).1
      = inputs.map (fun y => y.mat) := by
  refine ⟨rfl, rfl, ?_⟩
  have hflatrev : (inputs.map (reverseTsrTime time_major)).flatten
      = inputs.flatten.map (reverseTsrTime time_major) :=
    Nest.flatten_map inputs _
  have hn : output_size.flatten.length = inputs.flatten.length :=
    Nest.sameStruct_flatten_length _ _ hstruct
  have hT' : numSteps time_major (inputs.map (reverseTsrTime time_major)) = T := by
    unfold numSteps
    rw [hflatrev]
    cases hfl : inputs.flatten with
    | nil =>
      rw [hfl] at hne
      simp at hne
    | cons y ys =>
      simp only [List.map_cons, List.headD_cons]
      exact timeSlices_reverse_length time_major y T B hB
        (hrect y (by rw [hfl]; exact List.mem_cons_self y ys))
  simp only [reverse_dynamic_rnn, tf_dynamic_rnn]
  rw [rnnLoop_echo]
  have hstacked : (List.range output_size.flatten.length).map
      (fun j => stackOutput time_major
        ((stepInputsList time_major (inputs.map (reverseTsrTime time_major))).map
          (fun o => o.flatten.getD j [])))
      = inputs.flatten.map (fun y => reverseMatTime time_major y.mat) := by
    rw [hn, ← listMapRangeGetD inputs.flatten
      (fun y => reverseMatTime time_major y.mat) default]
    apply List.map_congr_left
    intro j hj
    have hjlt : j < inputs.flatten.length := List.mem_range.mp hj
    rw [List.getD_eq_getElem _ _ hjlt]
    simp only [stepInputsList, List.map_map, Function.comp_def, Nest.flatten_map,
      hflatrev, hT', List.map_map]
    have hget : ∀ t : Nat,
        (inputs.flatten.map
          (fun leaf =>
            (timeSlices time_major (reverseTsrTime time_major leaf)).getD t [])).getD j []
        = (timeSlices time_major
            (reverseTsrTime time_major (inputs.flatten[j]))).getD t [] := by
      intro t
      rw [List.getD_eq_getElem _ _
          (by rw [List.length_map]; exact hjlt),
        List.getElem_map]
    simp only [hget]
    have hLlen : (timeSlices time_major
        (reverseTsrTime time_major (inputs.flatten[j]))).length = T :=
      timeSlices_reverse_length time_major (inputs.flatten[j]) T B hB
        (hrect _ (List.getElem_mem hjlt))
    rw [← hLlen, listRangeGetD]
    exact stackOutput_timeSlices_reverse time_major (inputs.flatten[j]) T B hT hB
      (hrect _ (List.getElem_mem hjlt))
  rw [hstacked]
  have hpackmap : Nest.pack output_size
      (inputs.flatten.map (fun y => reverseMatTime time_major y.mat))
      = Nest.map (fun y => reverseMatTime time_major y.mat) inputs := by
    unfold Nest.pack
    rw [Nest.sameStruct_packGo output_size inputs hstruct]
    exact Nest.pack_flatten_map inputs _
  rw [hpackmap, Nest.map_map]
  apply Nest.map_congr
  intro y _
  exact reverseMatTime_reverseMatTime time_major y.mat

/-- Witness for C9: echo cell on a concrete 2x2 batch-major input. -/
theorem claim_C9_witness :
    Nest.sameStruct (Nest.leaf () : Nest Unit)
      (Nest.leaf (⟨[2, 2], [[1, 2], [3, 4]]⟩ : Tsr Nat)) = true
    ∧ (0 : Nat) < (Nest.leaf (⟨[2, 2], [[1, 2], [3, 4]]⟩ : Tsr Nat)).flatten.length
    ∧ (∀ y ∈ (Nest.leaf (⟨[2, 2], [[1, 2], [3, 4]]⟩ : Tsr Nat)).flatten,
        if false then y.mat.length = 2 ∧ ∀ row ∈ y.mat, row.length = 2
        else y.mat.length = 2 ∧ ∀ row ∈ y.mat, row.length = 2)
    ∧ (reverse_dynamic_rnn (fun i s => (i, s)) (Nest.leaf ())
        (Nest.leaf (⟨[2, 2], [[1, 2], [3, 4]]⟩ : Tsr Nat)) false (0 : Nat)).1
      = (Nest.leaf (⟨[2, 2], [[1, 2], [3, 4]]⟩ : Tsr Nat)).map (fun y => y.mat) :=
  ⟨rfl, by decide, by decide,
   (claim_C9 (fun i s => (i, s)) (Nest.leaf ())
     (Nest.leaf ⟨[2, 2], [[1, 2], [3, 4]]⟩) false 0 2 2
     rfl (by decide) (by decide) (by decide) (by decide)).2.2⟩

end VaeSeq
